import Mathlib

/-!
# Dosik13/homework2: a bounded-depth concurrent web crawler

Shallow embedding of `src/main.go` (and of its near copy `src/yessir/prob.go`).

* Go strings are modelled by Lean strings.  Every delimiter the program looks
  for (`?`, `/`, `http`) is ASCII, so searching by code point and searching by
  byte agree.
* The HTML tokenizer, `http.Get`, `net/url` and `path/filepath` are libraries
  outside the repository.  The tokenizer, the fetcher and the URL library are
  parameters of the model; `filepath.Base` and a small URL library are also
  given concretely so that the examples of the specification can be evaluated.
* Goroutines are modelled by an interleaving semantics: a configuration holds
  the visited registry, every `Crawl` task with its program point, and the
  state of the collection loop of `main`; a schedule is a list of moves.
-/

namespace Crawler

/-! ## Strings -/

/-- Go `strings.Contains(s, substr)` on character lists. -/
def containsChars (substr : List Char) : List Char → Bool
  | [] => substr.isEmpty
  | c :: cs => substr.isPrefixOf (c :: cs) || containsChars substr cs

/-- Go `strings.Contains`. -/
def Contains (s substr : String) : Bool :=
  containsChars substr.data s.data

/-- Go `strings.Split(s, sep)` for a one-character separator (the program only
splits on `?`).  The result is never empty: `Split sep "" = [""]`. -/
def Split (sep : Char) : List Char → List (List Char)
  | [] => [[]]
  | c :: cs =>
    if c = sep then [] :: Split sep cs
    else
      match Split sep cs with
      | [] => [[c]]
      | p :: ps => (c :: p) :: ps

/-- The function `sanitizeFileName` (main.go 213-216, prob.go 209-212):
`parts := strings.Split(name, "?"); return parts[0]`. -/
def sanitizeFileName (name : String) : String :=
  String.mk ((Split '?' name.data).headD [])

/-! ## `filepath.Base` and the derived image file name -/

/-- Go `filepath.Base` with `/` as the path separator: the empty path gives `.`,
trailing separators are removed, the part after the last separator is kept, and
a path made of separators only gives `/`.  (With the Windows separator set the
result on the inputs used below is the same: they contain no backslash and no
volume name.) -/
def Base (path : String) : String :=
  if path.data = [] then "."
  else
    let stripped := (path.data.reverse.dropWhile (fun c => c == '/')).reverse
    let last := (stripped.reverse.takeWhile (fun c => c != '/')).reverse
    if last = [] then "/" else String.mk last

/-- The file name computed in `DownloadImages` (main.go 186-187) and in
`DownloadImage` (prob.go 182-183):
`fileName := filepath.Base(url); fileName = sanitizeFileName(fileName)`. -/
def DownloadImages.fileName (url : String) : String :=
  sanitizeFileName (Base url)

/-- The query string stripped: the part of the URL before its first `?`. -/
def specStripQuery (url : List Char) : List Char :=
  url.takeWhile (fun c => c != '?')

/-- The last path segment: the part after the last `/`. -/
def specLastSegment (p : List Char) : List Char :=
  (p.reverse.takeWhile (fun c => c != '/')).reverse

/-- The file name as the specification words it: the last path segment of the
URL with any query string stripped. -/
def specFileName (url : String) : String :=
  String.mk (specLastSegment (specStripQuery url.data))

/-! ## HTML tokens and reference extraction -/

/-- Token types of `golang.org/x/net/html`. -/
inductive TokenType where
  | ErrorToken
  | TextToken
  | StartTagToken
  | EndTagToken
  | SelfClosingTagToken
  | CommentToken
  | DoctypeToken
  deriving DecidableEq, Repr

/-- An `html.Attribute` (the namespace is never read). -/
structure Attribute where
  Key : String
  Val : String
  deriving DecidableEq, Repr

/-- An `html.Token`; `Kind` is the Go field `Type`. -/
structure Token where
  Kind : TokenType
  Data : String
  Attr : List Attribute
  deriving DecidableEq, Repr

/-- The inner loop `for _, attr := range token.Attr` shared by `ExtractImages`
(main.go 161-169) and `realFetcher.Fetch` (main.go 51-59): for every attribute
named `key`, append its value when it contains `http`, and the source URL
followed by the value otherwise. -/
def appendRefs (url key : String) : List Attribute → List String → List String
  | [], acc => acc
  | attr :: rest, acc =>
    if attr.Key = key then
      if Contains attr.Val "http" then appendRefs url key rest (acc ++ [attr.Val])
      else appendRefs url key rest (acc ++ [url ++ attr.Val])
    else appendRefs url key rest acc

/-- The token loop of `ExtractImages` (main.go 153-172) over the tokens that
successive calls of `tokenizer.Next()` yield.  An `ErrorToken`, or the end of the
input (which the tokenizer reports as an `ErrorToken`), returns what was
accumulated. -/
def ExtractImages.loop (url : String) : List Token → List String → List String
  | [], imageURLs => imageURLs
  | token :: rest, imageURLs =>
    match token.Kind with
    | .ErrorToken => imageURLs
    | .SelfClosingTagToken | .StartTagToken =>
      if token.Data = "img" then
        ExtractImages.loop url rest (appendRefs url "src" token.Attr imageURLs)
      else ExtractImages.loop url rest imageURLs
    | _ => ExtractImages.loop url rest imageURLs

/-- The function `ExtractImages(body, url)` (main.go 149-173); `tokenize` stands for
`html.NewTokenizer`. -/
def ExtractImages (tokenize : String → List Token) (body url : String) : List String :=
  ExtractImages.loop url (tokenize body) []

/-- The token loop of `realFetcher.Fetch` (main.go 43-62). -/
def realFetcher.loop (url : String) : List Token → List String → List String
  | [], urls => urls
  | token :: rest, urls =>
    match token.Kind with
    | .ErrorToken => urls
    | .StartTagToken | .SelfClosingTagToken =>
      if token.Data = "a" || token.Data = "link" then
        realFetcher.loop url rest (appendRefs url "href" token.Attr urls)
      else realFetcher.loop url rest urls
    | _ => realFetcher.loop url rest urls

/-- The method `realFetcher.Fetch` (main.go 27-63).  `httpGet` stands for `http.Get`
followed by `ioutil.ReadAll`; a failure of either is returned as the error. -/
def realFetcher.Fetch (httpGet : String → Except String String)
    (tokenize : String → List Token) (url : String) :
    Except String (String × List String) :=
  match httpGet url with
  | .error err => .error err
  | .ok body => .ok (body, realFetcher.loop url (tokenize body) [])

/-- The reference values a scan meets: the values of the attributes named `key`
of the start and self-closing tags accepted by `isTag`, in document order, up to
the first `ErrorToken`. -/
def refValues (isTag : String → Bool) (key : String) : List Token → List String
  | [] => []
  | token :: rest =>
    if token.Kind = .ErrorToken then []
    else if (token.Kind = .StartTagToken ∨ token.Kind = .SelfClosingTagToken) ∧
        isTag token.Data = true then
      ((token.Attr.filter (fun a => decide (a.Key = key))).map (fun a => a.Val))
        ++ refValues isTag key rest
    else refValues isTag key rest

/-- Relative reference resolution as the specification words it: `r` unchanged
when `r` contains the substring `http`, the concatenation `s ++ r` otherwise. -/
def specResolve (s r : String) : String :=
  if "http".data <:+: r.data then r else s ++ r

/-! ## `net/url` and the internal/external classification -/

/-- The fields of a Go `url.URL` that `Parse` and `ResolveReference` fill in and
that decide the host of a resolved reference. -/
structure URL where
  Scheme : String
  opaquePart : String
  User : Option String
  Host : String
  Path : String
  RawQuery : String
  Fragment : String
  deriving DecidableEq, Repr

/-- The part of `net/url` that `isInternalLink` calls: `url.Parse`, which
returns a URL or an error, and `(*URL).ResolveReference`. -/
structure NetURL where
  Parse : String → Except String URL
  ResolveReference : URL → URL → URL

/-- The function `isInternalLink` (main.go 218-231, prob.go 214-227). -/
def isInternalLink (net : NetURL) (baseURL link : String) : Bool :=
  match net.Parse baseURL with
  | .error _ => false
  | .ok base =>
    match net.Parse link with
    | .error _ => false
    | .ok rel =>
      let target := net.ResolveReference base rel
      decide (base.Host = target.Host)

/-- Go `getScheme`: the scheme before the first `:` when it is made of letters,
and after the first character of digits, `+`, `-` and `.`; no scheme when another
character comes first; an error when the colon is the first character. -/
def getScheme (rawURL : List Char) : List Char → List Char → Except String (List Char × List Char)
  | _, [] => .ok ([], rawURL)
  | seen, c :: cs =>
    if c.isAlpha then getScheme rawURL (seen ++ [c]) cs
    else if c.isDigit || c = '+' || c = '-' || c = '.' then
      if seen = [] then .ok ([], rawURL) else getScheme rawURL (seen ++ [c]) cs
    else if c = ':' then
      if seen = [] then .error "missing protocol scheme" else .ok (seen, cs)
    else .ok ([], rawURL)

/-- Modelled from the Go standard library documentation: `url.Parse` for URLs
of the shapes `scheme://host/path?query#fragment`, `scheme:opaque`,
`//host/path`, `/path` and `path`.  Control characters, a leading colon and a
colon in the first segment of a relative path are errors.  Percent-decoding and
the validation of the host and port are left out. -/
def simpleParse (rawURL : String) : Except String URL :=
  let u := rawURL.data.takeWhile (fun c => c != '#')
  let frag := (rawURL.data.dropWhile (fun c => c != '#')).drop 1
  if u.any (fun c => decide (c.toNat < 32) || decide (c.toNat = 127)) then
    .error "net/url: invalid control character in URL"
  else
    match getScheme u [] u with
    | .error e => .error e
    | .ok (scheme, rest0) =>
      let rest := rest0.takeWhile (fun c => c != '?')
      let query := (rest0.dropWhile (fun c => c != '?')).drop 1
      let mk (opq : List Char) (user : Option String) (host path : List Char) : URL :=
        ⟨String.mk (scheme.map Char.toLower), String.mk opq, user, String.mk host,
          String.mk path, String.mk query, String.mk frag⟩
      if rest.head? ≠ some '/' ∧ scheme ≠ [] then .ok (mk rest none [] [])
      else if rest.head? ≠ some '/' ∧ ':' ∈ rest.takeWhile (fun c => c != '/') then
        .error "first path segment in URL cannot contain colon"
      else if ['/', '/'].isPrefixOf rest ∧ (scheme ≠ [] ∨ ¬ ['/', '/', '/'].isPrefixOf rest) then
        let authority := (rest.drop 2).takeWhile (fun c => c != '/')
        let path := (rest.drop 2).dropWhile (fun c => c != '/')
        if '@' ∈ authority then
          let host := (authority.reverse.takeWhile (fun c => c != '@')).reverse
          let user := (authority.reverse.dropWhile (fun c => c != '@')).drop 1
          .ok (mk [] (some (String.mk user.reverse)) host path)
        else .ok (mk [] none authority path)
      else .ok (mk [] none [] rest)

/-- Modelled from the Go standard library source of `(*URL).ResolveReference`:
the case analysis that decides scheme, user and host of the result.  The path of
the result is left unresolved (dot segments are not removed); `isInternalLink`
reads the host only. -/
def simpleResolveReference (u ref : URL) : URL :=
  let url : URL := if ref.Scheme = "" then { ref with Scheme := u.Scheme } else ref
  if ref.Scheme ≠ "" ∨ ref.Host ≠ "" ∨ ref.User ≠ none then url
  else if ref.opaquePart ≠ "" then { url with User := none, Host := "", Path := "" }
  else
    let url1 : URL :=
      if ref.Path = "" ∧ ref.RawQuery = "" then
        { url with RawQuery := u.RawQuery,
                   Fragment := if ref.Fragment = "" then u.Fragment else url.Fragment }
      else url
    if ref.Path = "" ∧ u.opaquePart ≠ "" then
      { url1 with opaquePart := u.opaquePart, User := none, Host := "", Path := "" }
    else
      { url1 with Host := u.Host, User := u.User,
                  Path := if ref.Path = "" then u.Path else ref.Path }

/-- The concrete URL library used to evaluate the examples. -/
def simpleURL : NetURL :=
  ⟨simpleParse, simpleResolveReference⟩

/-! ## The crawl: tasks, the visited registry and the collection loop -/

/-- The struct `Res` (main.go 106-110): the result of crawling a URL.  `found` is a Go
`int` that only ever holds a count. -/
structure Res where
  url : String
  body : String
  found : Nat
  deriving DecidableEq, Repr

/-- What a run is given: the `Fetcher` (a total function from a URL to body and
links, or to an error), the flag `followExternalLinks`, and the libraries. -/
structure Env where
  fetcher : String → Except String (String × List String)
  followExternalLinks : Bool
  net : NetURL
  tokenize : String → List Token

/-- The program point of a `Crawl` goroutine (main.go 66-103). -/
inductive PC where
  /-- Created by `go Crawl(...)`; the context check and `visited.Store` are next. -/
  | entry
  /-- After `visited.Store(url, true)`; `fetcher.Fetch(url)` is next. -/
  | fetch
  /-- Inside `for _, u := range urls` with the links still to visit and the
  counter `newUrls`. -/
  | expand (body : String) (urls : List String) (newUrls : Nat)
  /-- Blocked in `ch <- Res` until the collection loop receives. -/
  | sendRes (s : Res)
  /-- Blocked in `errs <- err` until the collection loop receives. -/
  | sendErr (err : String)
  /-- Returned. -/
  | done
  deriving DecidableEq, Repr

/-- A `Crawl` goroutine: its arguments `url` and `depth` and its program point.
`hops` is bookkeeping of the model only: the number of spawns between the seed
and this task.  No transition reads it. -/
structure Task where
  url : String
  depth : Int
  hops : Nat
  pc : PC
  deriving DecidableEq, Repr

/-- The call `visited.Store(url, true)` on the key set of the `sync.Map`. -/
def Store (visited : List String) (url : String) : List String :=
  if url ∈ visited then visited else visited ++ [url]

/-- The call `_, alreadyVisited := visited.Load(u)`. -/
def Load (visited : List String) (u : String) : Bool :=
  decide (u ∈ visited)

/-- One atomic step of a `Crawl` goroutine (main.go 66-103), given whether the
context has expired and the current registry.  The first step is the context
check followed by `visited.Store` under the mutex; then the fetch; then one step
for every link of the loop (one `visited.Load` each); then the send.  The
`WaitGroup` is not modelled.  The step returns the goroutine after it, the
goroutines it started with `go Crawl(u, depth-1, ...)`, and the registry.  A
goroutine blocked in a channel send, or returned, has no step of its own. -/
def Crawl.step (env : Env) (expired : Bool) (visited : List String) (t : Task) :
    Option (Task × List Task × List String) :=
  match t.pc with
  | .entry =>
    if expired then some ({ t with pc := .done }, [], visited)
    else some ({ t with pc := .fetch }, [], Store visited t.url)
  | .fetch =>
    match env.fetcher t.url with
    | .error err => some ({ t with pc := .sendErr err }, [], visited)
    | .ok (body, urls) =>
      if t.depth > 1 then some ({ t with pc := .expand body urls 0 }, [], visited)
      else some ({ t with pc := .sendRes ⟨t.url, body, 0⟩ }, [], visited)
  | .expand body (u :: rest) newUrls =>
    if env.followExternalLinks || isInternalLink env.net t.url u then
      if !Load visited u then
        some ({ t with pc := .expand body rest (newUrls + 1) },
          [⟨u, t.depth - 1, t.hops + 1, .entry⟩], visited)
      else some ({ t with pc := .expand body rest newUrls }, [], visited)
    else some ({ t with pc := .expand body rest newUrls }, [], visited)
  | .expand body [] newUrls =>
    some ({ t with pc := .sendRes ⟨t.url, body, newUrls⟩ }, [], visited)
  | .sendRes _ => none
  | .sendErr _ => none
  | .done => none

/-- One goroutine run on its own for as many steps as registry views are given:
the k-th step sees the k-th view, which is how the steps of the other goroutines
in between show.  It returns the goroutine and the children it started. -/
def Crawl.runViews (env : Env) : List (List String) → Task → List Task → Task × List Task
  | [], t, spawned => (t, spawned)
  | v :: vs, t, spawned =>
    match Crawl.step env false v t with
    | none => (t, spawned)
    | some (t1, new, _) => Crawl.runViews env vs t1 (spawned ++ new)

/-- What one `select` of the collection loop can take (main.go 132-141). -/
inductive Event where
  | result (s : Res)
  | error (e : String)
  | timeout
  deriving DecidableEq, Repr

/-- The state of the collection loop of `main` (main.go 130-142): the loop
counter `n`, the watermark `toCollect`, the image URLs gathered so far and the
lines printed. -/
structure Loop where
  n : Nat
  toCollect : Nat
  imageURLs : List String
  out : List String
  deriving DecidableEq, Repr

/-- One iteration of `for n := 0; n < toCollect; n++ { select { ... } }` taking
the given event: the arm of the `select`, then `n++`. -/
def main.loopBody (env : Env) (l : Loop) : Event → Loop
  | .result s =>
    { n := l.n + 1
      toCollect := l.toCollect + s.found
      imageURLs := l.imageURLs ++ ExtractImages env.tokenize s.body s.url
      out := l.out ++ ["found: " ++ s.url] }
  | .error e => { l with n := l.n + 1, out := l.out ++ [e] }
  | .timeout => { l with n := l.n + 1, out := l.out ++ ["Crawling timed out"] }

/-- The collection loop over the events in the order the `select` takes them: it
runs while `n < toCollect` and returns its final state with the events it did not
consume. -/
def main.collect (env : Env) : Loop → List Event → Loop × List Event
  | l, [] => (l, [])
  | l, e :: es =>
    if l.n < l.toCollect then main.collect env (main.loopBody env l e) es
    else (l, e :: es)

/-- A configuration of the running program. -/
structure Config where
  /-- Whether the deadline of the context has passed (`ctx.Done()` is closed). -/
  expired : Bool
  /-- The keys of the global `visited` map. -/
  visited : List String
  /-- Every goroutine started so far, in the order of creation. -/
  tasks : List Task
  /-- The collection loop of `main`. -/
  loop : Loop
  deriving DecidableEq, Repr

/-- A scheduling choice. -/
inductive Move where
  /-- Goroutine `i` takes its next step. -/
  | task (i : Nat)
  /-- The `select` of the collection loop receives what goroutine `i` is sending. -/
  | recv (i : Nat)
  /-- The `select` of the collection loop takes `<-ctx.Done()`. -/
  | timeout
  /-- The deadline of the context passes. -/
  | deadline
  deriving DecidableEq, Repr

/-- The configuration after `main` has started the seed goroutine and set
`toCollect := 1` (main.go 116-130).  `main` uses the seed
`https://rarehistoricalphotos.com` and the depth 3. -/
def main.init (seed : String) (depth : Int) : Config :=
  { expired := false
    visited := []
    tasks := [⟨seed, depth, 0, .entry⟩]
    loop := ⟨0, 1, [], []⟩ }

/-- One move of the program; `none` when the move is not enabled. -/
def step (env : Env) (c : Config) : Move → Option Config
  | .task i =>
    match c.tasks[i]? with
    | none => none
    | some t =>
      match Crawl.step env c.expired c.visited t with
      | none => none
      | some (t1, spawned, visited1) =>
        some { c with visited := visited1, tasks := c.tasks.set i t1 ++ spawned }
  | .recv i =>
    if c.loop.n < c.loop.toCollect then
      match c.tasks[i]? with
      | none => none
      | some t =>
        match t.pc with
        | .sendRes s =>
          some { c with tasks := c.tasks.set i { t with pc := .done },
                        loop := main.loopBody env c.loop (.result s) }
        | .sendErr e =>
          some { c with tasks := c.tasks.set i { t with pc := .done },
                        loop := main.loopBody env c.loop (.error e) }
        | _ => none
    else none
  | .timeout =>
    if c.expired ∧ c.loop.n < c.loop.toCollect then
      some { c with loop := main.loopBody env c.loop .timeout }
    else none
  | .deadline => some { c with expired := true }

/-- A schedule run from a configuration; `none` when some move is not enabled. -/
def run (env : Env) : Config → List Move → Option Config
  | c, [] => some c
  | c, m :: ms =>
    match step env c m with
    | none => none
    | some c1 => run env c1 ms

/-! ## The scenarios of the specification -/

/-- A tokenizer that yields no token: the bodies of the scenarios hold no markup. -/
def noTokens (_ : String) : List Token := []

/-- The end-to-end scenario: the seed `S` links to `A` and `B`, which link to
nothing. -/
def twoLinks : Env :=
  { fetcher := fun url =>
      if url = "http://s.test/" then .ok ("s", ["http://s.test/a", "http://s.test/b"])
      else .ok ("", [])
    followExternalLinks := true
    net := simpleURL
    tokenize := noTokens }

/-- A page that lists the same link twice. -/
def sameLinkTwice : Env :=
  { fetcher := fun url =>
      if url = "http://s.test/" then .ok ("s", ["http://s.test/a", "http://s.test/a"])
      else .ok ("", [])
    followExternalLinks := true
    net := simpleURL
    tokenize := noTokens }

/-- A fetcher that fails everywhere. -/
def allFail : Env :=
  { fetcher := fun url => .error ("Get " ++ url ++ ": no such host")
    followExternalLinks := false
    net := simpleURL
    tokenize := noTokens }

/-! ## The invariant of a task -/

/-- What holds of every goroutine of a crawl started with the depth `d`: its
depth argument is `d` minus its number of hops from the seed; every goroutine but
the seed has a depth argument of at least 1; the loop over the links is only
entered with a depth argument above 1; and a Result being sent carries the URL of
the goroutine, with `found = 0` when the depth argument is at most 1. -/
def TaskInv (d : Int) (t : Task) : Prop :=
  t.depth = d - t.hops ∧
  (t.hops = 0 ∨ 1 ≤ t.depth) ∧
  (∀ body urls newUrls, t.pc = .expand body urls newUrls → 1 < t.depth) ∧
  (∀ s, t.pc = .sendRes s → s.url = t.url ∧ (t.depth ≤ 1 → s.found = 0))

/-- The children one goroutine starts from the link list `L` when the k-th
`visited.Load` sees the k-th registry view: one goroutine, with `depth - 1`, for
every occurrence that the link policy admits and that the registry does not
hold. -/
def expectedChildren (env : Env) (url : String) (depth : Int) (hops : Nat)
    (L : List String) (views : List (List String)) : List Task :=
  ((L.zip views).filter (fun p =>
      (env.followExternalLinks || isInternalLink env.net url p.1) && !decide (p.1 ∈ p.2))).map
    (fun p => ⟨p.1, depth - 1, hops + 1, .entry⟩)

/-! # Theorems -/

/-! ## Strings -/

theorem containsChars_iff (substr s : List Char) :
    containsChars substr s = true ↔ substr <:+: s := by
  induction s with
  | nil => simp [containsChars, List.isEmpty_iff]
  | cons c cs ih =>
    simp only [containsChars, Bool.or_eq_true, ih, List.infix_cons_iff,
      List.isPrefixOf_iff_prefix]

theorem Contains_iff (s substr : String) :
    Contains s substr = true ↔ substr.data <:+: s.data :=
  containsChars_iff _ _

theorem Split_ne_nil (sep : Char) (l : List Char) : Split sep l ≠ [] := by
  cases l with
  | nil => simp [Split]
  | cons c cs =>
    unfold Split
    split
    · simp
    · split <;> simp

theorem Split_headD (sep : Char) (l : List Char) :
    (Split sep l).headD [] = l.takeWhile (fun c => c != sep) := by
  induction l with
  | nil => simp [Split]
  | cons c cs ih =>
    unfold Split
    by_cases h : c = sep
    · simp [h]
    · have hb : (c != sep) = true := by simpa using h
      rw [if_neg h, List.takeWhile_cons, hb, if_pos rfl, ← ih]
      cases hs : Split sep cs with
      | nil => simp
      | cons p ps => simp

theorem sanitizeFileName_data (name : String) :
    (sanitizeFileName name).data = name.data.takeWhile (fun c => c != '?') := by
  show (Split '?' name.data).headD [] = _
  exact Split_headD _ _

theorem takeWhile_takeWhile (p : Char → Bool) (l : List Char) :
    (l.takeWhile p).takeWhile p = l.takeWhile p := by
  induction l with
  | nil => rfl
  | cons c cs ih =>
    by_cases h : p c = true
    · simp [List.takeWhile_cons, h, ih]
    · simp [List.takeWhile_cons, h]

theorem not_mem_takeWhile_ne (sep : Char) (l : List Char) :
    sep ∉ l.takeWhile (fun c => c != sep) := by
  intro h
  have := List.mem_takeWhile_imp h
  simp at this

theorem takeWhile_ne_of_not_mem (sep : Char) (l : List Char) (h : sep ∉ l) :
    l.takeWhile (fun c => c != sep) = l := by
  induction l with
  | nil => rfl
  | cons c cs ih =>
    have hc : c ≠ sep := fun e => h (by simp [e])
    have hcs : sep ∉ cs := fun e => h (by simp [e])
    have hb : (c != sep) = true := by simpa using hc
    rw [List.takeWhile_cons, hb, if_pos rfl, ih hcs]

/-- C8. `sanitizeFileName name` is the part of `name` before its first `?` (the
whole name when it holds no `?`); the result never holds a `?`; applying the
function twice equals applying it once; and
`sanitizeFileName "photo.jpg?size=large" = "photo.jpg"`. -/
theorem sanitizeFileName_strips_query (name : String) :
    (sanitizeFileName name).data = name.data.takeWhile (fun c => c != '?') ∧
    name.data = (sanitizeFileName name).data ++ name.data.dropWhile (fun c => c != '?') ∧
    ('?' ∈ name.data ∨ sanitizeFileName name = name) ∧
    '?' ∉ (sanitizeFileName name).data ∧
    sanitizeFileName (sanitizeFileName name) = sanitizeFileName name ∧
    sanitizeFileName "photo.jpg?size=large" = "photo.jpg" := by
  refine ⟨sanitizeFileName_data name, ?_, ?_, ?_, ?_, by decide⟩
  · rw [sanitizeFileName_data, List.takeWhile_append_dropWhile]
  · by_cases h : '?' ∈ name.data
    · exact Or.inl h
    · right
      apply String.ext
      rw [sanitizeFileName_data, takeWhile_ne_of_not_mem _ _ h]
  · rw [sanitizeFileName_data]
    exact not_mem_takeWhile_ne _ _
  · apply String.ext
    rw [sanitizeFileName_data, sanitizeFileName_data, takeWhile_takeWhile]


/-! ## Reference extraction -/

theorem specResolve_eq (s r : String) :
    specResolve s r = if Contains r "http" then r else s ++ r := by
  unfold specResolve
  by_cases h : "http".data <:+: r.data
  · rw [if_pos h, if_pos ((Contains_iff r "http").2 h)]
  · have h2 : ¬ Contains r "http" = true := fun e => h ((Contains_iff r "http").1 e)
    rw [if_neg h, if_neg h2]

theorem appendRefs_eq (url key : String) (attrs : List Attribute) (acc : List String) :
    appendRefs url key attrs acc =
      acc ++ ((attrs.filter (fun a => decide (a.Key = key))).map (fun a => a.Val)).map
        (specResolve url) := by
  induction attrs generalizing acc with
  | nil => simp [appendRefs]
  | cons a rest ih =>
    unfold appendRefs
    by_cases hk : a.Key = key
    · rw [if_pos hk]
      by_cases hc : Contains a.Val "http" = true
      · rw [if_pos hc, ih]
        simp [List.filter_cons, hk, specResolve_eq, hc]
      · rw [if_neg hc, ih]
        simp [List.filter_cons, hk, specResolve_eq, hc]
    · rw [if_neg hk, ih]
      simp [List.filter_cons, hk]

theorem ExtractImages_loop_eq (url : String) (toks : List Token) (acc : List String) :
    ExtractImages.loop url toks acc =
      acc ++ (refValues (fun d => d == "img") "src" toks).map (specResolve url) := by
  induction toks generalizing acc with
  | nil => simp [ExtractImages.loop, refValues]
  | cons t rest ih =>
    unfold ExtractImages.loop refValues
    cases hk : t.Kind <;> by_cases hd : t.Data = "img" <;>
      simp [hd, ih, appendRefs_eq]

theorem realFetcher_loop_eq (url : String) (toks : List Token) (acc : List String) :
    realFetcher.loop url toks acc =
      acc ++ (refValues (fun d => d == "a" || d == "link") "href" toks).map
        (specResolve url) := by
  induction toks generalizing acc with
  | nil => simp [realFetcher.loop, refValues]
  | cons t rest ih =>
    unfold realFetcher.loop refValues
    cases hk : t.Kind <;> by_cases hd : (t.Data = "a" ∨ t.Data = "link") <;>
      simp [hd, ih, appendRefs_eq]

/-- C5. Relative reference resolution.  For every document and every source URL
`s`, `ExtractImages` emits, for the `src` values `r` of the `img` tags in document
order, `r` unchanged when `r` contains the substring `http` and `s ++ r`
otherwise; `realFetcher.Fetch` does the same with the `href` values of the `a` and
`link` tags.  With source `http://example.com/a/`, the reference `img.png` gives
`http://example.com/a/img.png` and `http://other.com/x.png` is unchanged. -/
theorem relative_reference_resolution
    (httpGet : String → Except String String) (tokenize : String → List Token)
    (body s : String) :
    ExtractImages tokenize body s =
      (refValues (fun d => d == "img") "src" (tokenize body)).map
        (fun r => if "http".data <:+: r.data then r else s ++ r) ∧
    realFetcher.Fetch httpGet tokenize s =
      (httpGet s).map (fun b =>
        (b, (refValues (fun d => d == "a" || d == "link") "href" (tokenize b)).map
          (fun r => if "http".data <:+: r.data then r else s ++ r))) ∧
    ExtractImages
      (fun _ => [⟨.StartTagToken, "img", [⟨"src", "img.png"⟩]⟩,
                 ⟨.SelfClosingTagToken, "img", [⟨"alt", "x"⟩, ⟨"src", "http://other.com/x.png"⟩]⟩])
      "" "http://example.com/a/" =
      ["http://example.com/a/img.png", "http://other.com/x.png"] := by
  refine ⟨?_, ?_, by decide⟩
  · unfold ExtractImages
    rw [ExtractImages_loop_eq]
    rfl
  · unfold realFetcher.Fetch
    cases httpGet s with
    | error e => rfl
    | ok b =>
      show Except.ok _ = Except.ok _
      rw [realFetcher_loop_eq]
      rfl


/-! ## Internal links and file names -/

/-- C6. `isInternalLink` is total; it returns `false` whenever `url.Parse` fails
on `baseURL` or on `link`; when both parse it returns `true` exactly when the host
of `link` resolved against `baseURL` equals the host of `baseURL`.
`isInternalLink "http://example.com" "http://example.com/foo"` is `true` and
`isInternalLink "http://example.com" "http://other.com/foo"` is `false`. -/
theorem isInternalLink_fails_closed (net : NetURL) (baseURL link : String) :
    isInternalLink net baseURL link =
      (match net.Parse baseURL, net.Parse link with
       | .ok base, .ok rel => decide ((net.ResolveReference base rel).Host = base.Host)
       | _, _ => false) ∧
    ((∃ e, net.Parse baseURL = .error e) ∨ (∃ e, net.Parse link = .error e) →
      isInternalLink net baseURL link = false) ∧
    (∀ base rel, net.Parse baseURL = .ok base → net.Parse link = .ok rel →
      (isInternalLink net baseURL link = true ↔
        (net.ResolveReference base rel).Host = base.Host)) ∧
    isInternalLink simpleURL "http://example.com" "http://example.com/foo" = true ∧
    isInternalLink simpleURL "http://example.com" "http://other.com/foo" = false := by
  refine ⟨?_, ?_, ?_, by decide, by decide⟩
  · unfold isInternalLink
    cases net.Parse baseURL with
    | error e => rfl
    | ok base =>
      cases net.Parse link with
      | error e => rfl
      | ok rel => simp [eq_comm]
  · rintro (⟨e, h⟩ | ⟨e, h⟩)
    · simp [isInternalLink, h]
    · unfold isInternalLink
      cases net.Parse baseURL with
      | error e => rfl
      | ok base => simp [h]
  · intro base rel hb hr
    simp [isInternalLink, hb, hr, eq_comm]

/-- A malformed base (a control character) and a malformed link (a leading colon)
are classified as not internal, and a link that resolves to the host of the base
is internal. -/
theorem isInternalLink_fails_closed_witness :
    isInternalLink simpleURL "http://exa\nmple.com" "http://example.com/foo" = false ∧
    isInternalLink simpleURL "http://example.com" ":foo" = false ∧
    (isInternalLink simpleURL "http://example.com" "/foo" = true ↔
      (simpleURL.ResolveReference
        ⟨"http", "", none, "example.com", "", "", ""⟩
        ⟨"", "", none, "", "/foo", "", ""⟩).Host = "example.com") :=
  ⟨(isInternalLink_fails_closed simpleURL "http://exa\nmple.com" "http://example.com/foo").2.1
      (Or.inl ⟨"net/url: invalid control character in URL", rfl⟩),
   (isInternalLink_fails_closed simpleURL "http://example.com" ":foo").2.1
      (Or.inr ⟨"missing protocol scheme", rfl⟩),
   (isInternalLink_fails_closed simpleURL "http://example.com" "/foo").2.2.1
      ⟨"http", "", none, "example.com", "", "", ""⟩ ⟨"", "", none, "", "/foo", "", ""⟩
      rfl rfl⟩

/-- C7. The image URL `http://example.com/photo.jpg?next=/home` has the last path
segment `photo.jpg`, and that is its file name with the query string stripped; the
program derives the file name `home`, a piece of the query string, because
`filepath.Base` cuts at the last `/` of the whole URL before `sanitizeFileName`
removes the query string. -/
theorem fileName_query_with_slash :
    Base "http://example.com/photo.jpg?next=/home" = "home" ∧
    DownloadImages.fileName "http://example.com/photo.jpg?next=/home" = "home" ∧
    specFileName "http://example.com/photo.jpg?next=/home" = "photo.jpg" ∧
    DownloadImages.fileName "http://example.com/photo.jpg?next=/home" ≠
      specFileName "http://example.com/photo.jpg?next=/home" := by
  decide

/-- When the query string holds no `/`, the same URL gets the file name the
specification describes. -/
theorem fileName_query_without_slash :
    DownloadImages.fileName "http://example.com/photo.jpg?size=large" = "photo.jpg" ∧
    specFileName "http://example.com/photo.jpg?size=large" = "photo.jpg" := by
  decide


/-! ## The depth bound -/

theorem Crawl_step_inv (env : Env) (d : Int) (expired : Bool) (visited : List String)
    (t t1 : Task) (spawned : List Task) (visited1 : List String)
    (hinv : TaskInv d t)
    (hstep : Crawl.step env expired visited t = some (t1, spawned, visited1)) :
    TaskInv d t1 ∧ ∀ s ∈ spawned, TaskInv d s := by
  obtain ⟨url, depth, hops, pc⟩ := t
  obtain ⟨h1, h2, h3, h4⟩ := hinv
  simp only at h1 h2 h3 h4
  cases pc with
  | entry =>
    simp only [Crawl.step] at hstep
    split at hstep <;>
    · simp only [Option.some.injEq, Prod.mk.injEq] at hstep
      obtain ⟨rfl, rfl, -⟩ := hstep
      exact ⟨⟨h1, h2, by simp, by simp⟩, by simp⟩
  | fetch =>
    simp only [Crawl.step] at hstep
    split at hstep
    · simp only [Option.some.injEq, Prod.mk.injEq] at hstep
      obtain ⟨rfl, rfl, -⟩ := hstep
      exact ⟨⟨h1, h2, by simp, by simp⟩, by simp⟩
    · split at hstep
      · rename_i hd
        simp only [Option.some.injEq, Prod.mk.injEq] at hstep
        obtain ⟨rfl, rfl, -⟩ := hstep
        exact ⟨⟨h1, h2, fun _ _ _ _ => hd, by simp⟩, by simp⟩
      · simp only [Option.some.injEq, Prod.mk.injEq] at hstep
        obtain ⟨rfl, rfl, -⟩ := hstep
        refine ⟨⟨h1, h2, by simp, ?_⟩, by simp⟩
        intro s hs
        simp only [PC.sendRes.injEq] at hs
        subst hs
        exact ⟨rfl, fun _ => rfl⟩
  | expand body urls newUrls =>
    have hd : 1 < depth := h3 body urls newUrls rfl
    cases urls with
    | nil =>
      simp only [Crawl.step, Option.some.injEq, Prod.mk.injEq] at hstep
      obtain ⟨rfl, rfl, -⟩ := hstep
      refine ⟨⟨h1, h2, by simp, ?_⟩, by simp⟩
      intro s hs
      simp only [PC.sendRes.injEq] at hs
      subst hs
      refine ⟨rfl, fun h => ?_⟩
      simp only at h
      omega
    | cons u rest =>
      simp only [Crawl.step] at hstep
      split at hstep
      · split at hstep
        · simp only [Option.some.injEq, Prod.mk.injEq] at hstep
          obtain ⟨rfl, rfl, -⟩ := hstep
          refine ⟨⟨h1, h2, fun _ _ _ _ => hd, by simp⟩, ?_⟩
          intro s hs
          simp only [List.mem_singleton] at hs
          subst hs
          refine ⟨?_, Or.inr ?_, by simp, by simp⟩
          · simp only [h1]; push_cast; ring
          · simp only; omega
        · simp only [Option.some.injEq, Prod.mk.injEq] at hstep
          obtain ⟨rfl, rfl, -⟩ := hstep
          exact ⟨⟨h1, h2, fun _ _ _ _ => hd, by simp⟩, by simp⟩
      · simp only [Option.some.injEq, Prod.mk.injEq] at hstep
        obtain ⟨rfl, rfl, -⟩ := hstep
        exact ⟨⟨h1, h2, fun _ _ _ _ => hd, by simp⟩, by simp⟩
  | sendRes s => simp [Crawl.step] at hstep
  | sendErr e => simp [Crawl.step] at hstep
  | done => simp [Crawl.step] at hstep

theorem TaskInv_done (d : Int) (t : Task) (h : TaskInv d t) :
    TaskInv d { t with pc := .done } := by
  obtain ⟨h1, h2, -, -⟩ := h
  exact ⟨h1, h2, by simp, by simp⟩

theorem getElem?_mem_of_eq_some {α : Type} (l : List α) (i : Nat) (a : α)
    (h : l[i]? = some a) : a ∈ l := by
  rw [List.getElem?_eq_some] at h
  obtain ⟨hi, rfl⟩ := h
  exact List.getElem_mem _

theorem step_inv (env : Env) (d : Int) (c c1 : Config) (m : Move)
    (hinv : ∀ t ∈ c.tasks, TaskInv d t) (hstep : step env c m = some c1) :
    ∀ t ∈ c1.tasks, TaskInv d t := by
  cases m with
  | task i =>
    simp only [step] at hstep
    split at hstep
    · simp at hstep
    · rename_i t ht
      split at hstep
      · simp at hstep
      · rename_i t1 spawned visited1 hcs
        simp only [Option.some.injEq] at hstep
        subst hstep
        have hti := hinv t (getElem?_mem_of_eq_some _ _ _ ht)
        obtain ⟨a, b⟩ := Crawl_step_inv env d _ _ _ _ _ _ hti hcs
        intro x hx
        simp only [List.mem_append] at hx
        rcases hx with hx | hx
        · rcases List.mem_or_eq_of_mem_set hx with hx | hx
          · exact hinv x hx
          · exact hx ▸ a
        · exact b x hx
  | recv i =>
    simp only [step] at hstep
    split at hstep
    · split at hstep
      · simp at hstep
      · rename_i t ht
        have hti := hinv t (getElem?_mem_of_eq_some _ _ _ ht)
        split at hstep <;>
          first
          | (simp only [Option.some.injEq] at hstep
             subst hstep
             intro x hx
             rcases List.mem_or_eq_of_mem_set hx with hx | hx
             · exact hinv x hx
             · exact hx ▸ TaskInv_done d t hti)
          | simp at hstep
    · simp at hstep
  | timeout =>
    simp only [step] at hstep
    split at hstep
    · simp only [Option.some.injEq] at hstep
      subst hstep
      exact hinv
    · simp at hstep
  | deadline =>
    simp only [step, Option.some.injEq] at hstep
    subst hstep
    exact hinv

theorem run_inv (env : Env) (d : Int) (moves : List Move) (c c1 : Config)
    (hinv : ∀ t ∈ c.tasks, TaskInv d t) (hrun : run env c moves = some c1) :
    ∀ t ∈ c1.tasks, TaskInv d t := by
  induction moves generalizing c with
  | nil =>
    simp only [run, Option.some.injEq] at hrun
    subst hrun
    exact hinv
  | cons m ms ih =>
    simp only [run] at hrun
    split at hrun
    · simp at hrun
    · rename_i c2 hc2
      exact ih c2 (step_inv env d c c2 m hinv hc2) hrun

theorem init_inv (seed : String) (d : Int) : ∀ t ∈ (main.init seed d).tasks, TaskInv d t := by
  intro t ht
  simp only [main.init, List.mem_singleton] at ht
  subst ht
  exact ⟨by simp, Or.inl rfl, by simp, by simp⟩

/-- C3. Depth bound.  In every configuration that a crawl started with
`Crawl(seed, d)` reaches, under every schedule and every fetcher, a task `h` hops
from the seed runs with the depth argument `d - h`, and `h` is at most `d` (a
negative `d` is read as 0: then only the seed itself, at 0 hops, ever runs); every
spawned task has a depth argument of at least 1.  A task whose depth argument is at most 1 is never
inside the loop that spawns children, and a Result it sends is its own with
`found = 0`; such a task still stores its URL and fetches, and after a successful
fetch it sends `Res{url, body, 0}` without spawning. -/
theorem depth_bound (env : Env) (seed : String) (d : Int) (moves : List Move) (c : Config)
    (hrun : run env (main.init seed d) moves = some c) :
    (∀ t ∈ c.tasks, t.depth = d - t.hops ∧ (t.hops : Int) ≤ max d 0 ∧
      (0 ≤ d → (t.hops : Int) ≤ d) ∧ (t.hops ≠ 0 → 1 ≤ t.depth)) ∧
    (∀ t ∈ c.tasks, t.depth ≤ 1 →
      (∀ body urls newUrls, t.pc ≠ .expand body urls newUrls) ∧
      (∀ s, t.pc = .sendRes s → s.url = t.url ∧ s.found = 0)) ∧
    (∀ (t : Task) (visited : List String), t.depth ≤ 1 →
      Crawl.step env false visited { t with pc := .entry } =
        some ({ t with pc := .fetch }, [], Store visited t.url) ∧
      ∀ expired body urls, env.fetcher t.url = .ok (body, urls) →
        Crawl.step env expired visited { t with pc := .fetch } =
          some ({ t with pc := .sendRes ⟨t.url, body, 0⟩ }, [], visited)) := by
  have hinv := run_inv env d moves _ c (init_inv seed d) hrun
  refine ⟨?_, ?_, ?_⟩
  · intro t ht
    obtain ⟨h1, h2, -, -⟩ := hinv t ht
    refine ⟨h1, ?_, ?_, ?_⟩
    · rcases h2 with h2 | h2
      · rw [h2]
        exact le_max_right _ _
      · exact le_trans (by omega) (le_max_left _ _)
    · intro hd
      rcases h2 with h2 | h2
      · rw [h2]
        exact hd
      · omega
    · intro hne
      rcases h2 with h2 | h2
      · exact absurd h2 hne
      · exact h2
  · intro t ht hd
    obtain ⟨-, -, h3, h4⟩ := hinv t ht
    refine ⟨?_, ?_⟩
    · intro body urls newUrls hpc
      have := h3 body urls newUrls hpc
      omega
    · intro s hs
      exact ⟨(h4 s hs).1, (h4 s hs).2 hd⟩
  · intro t visited hd
    refine ⟨rfl, ?_⟩
    intro expired body urls hf
    have hnot : ¬ t.depth > 1 := by omega
    simp only [Crawl.step, hf]
    rw [if_neg hnot]

/-- The end-to-end scenario run to its end with depth 2: the child `a` runs at
1 hop with the depth argument 1. -/
theorem depth_bound_witness :
    run twoLinks (main.init "http://s.test/" 2)
        [.task 0, .task 0, .task 0, .task 0, .task 0, .recv 0, .task 1, .task 1, .recv 1,
          .task 2, .task 2, .recv 2] =
      some ⟨false, ["http://s.test/", "http://s.test/a", "http://s.test/b"],
        [⟨"http://s.test/", 2, 0, .done⟩, ⟨"http://s.test/a", 1, 1, .done⟩,
          ⟨"http://s.test/b", 1, 1, .done⟩],
        ⟨3, 3, [], ["found: http://s.test/", "found: http://s.test/a",
          "found: http://s.test/b"]⟩⟩ ∧
    ((⟨"http://s.test/a", 1, 1, .done⟩ : Task).depth =
        2 - ((⟨"http://s.test/a", 1, 1, .done⟩ : Task).hops : Int) ∧
      (((⟨"http://s.test/a", 1, 1, .done⟩ : Task).hops : Nat) : Int) ≤ max 2 0 ∧
      ((0 : Int) ≤ 2 → (((⟨"http://s.test/a", 1, 1, .done⟩ : Task).hops : Nat) : Int) ≤ 2) ∧
      ((⟨"http://s.test/a", 1, 1, .done⟩ : Task).hops ≠ 0 →
        1 ≤ (⟨"http://s.test/a", 1, 1, .done⟩ : Task).depth)) :=
  ⟨by decide,
    (depth_bound twoLinks "http://s.test/" 2
      [.task 0, .task 0, .task 0, .task 0, .task 0, .recv 0, .task 1, .task 1, .recv 1,
        .task 2, .task 2, .recv 2]
      ⟨false, ["http://s.test/", "http://s.test/a", "http://s.test/b"],
        [⟨"http://s.test/", 2, 0, .done⟩, ⟨"http://s.test/a", 1, 1, .done⟩,
          ⟨"http://s.test/b", 1, 1, .done⟩],
        ⟨3, 3, [], ["found: http://s.test/", "found: http://s.test/a",
          "found: http://s.test/b"]⟩⟩
      (by decide)).1 ⟨"http://s.test/a", 1, 1, .done⟩ (by simp)⟩

/-! ## The expansion step -/

theorem runViews_expand (env : Env) (url body : String) (depth : Int) (hops : Nat)
    (L : List String) (views : List (List String)) (k : Nat) (acc : List Task)
    (hlen : views.length = L.length) :
    Crawl.runViews env views ⟨url, depth, hops, .expand body L k⟩ acc =
      (⟨url, depth, hops,
          .expand body [] (k + (expectedChildren env url depth hops L views).length)⟩,
        acc ++ expectedChildren env url depth hops L views) := by
  induction L generalizing views k acc with
  | nil =>
    cases views with
    | nil => simp [Crawl.runViews, expectedChildren]
    | cons v vs => simp at hlen
  | cons u rest ih =>
    cases views with
    | nil => simp at hlen
    | cons v vs =>
      have hlen2 : vs.length = rest.length := by simpa using hlen
      by_cases hp : (env.followExternalLinks || isInternalLink env.net url u) = true
      · by_cases hv : u ∈ v
        · simp only [Crawl.runViews, Crawl.step, hp, Load, hv, if_true, decide_True,
            Bool.not_true, Bool.false_eq_true, if_false]
          rw [ih vs k _ hlen2]
          simp [expectedChildren, List.zip_cons_cons, List.filter_cons, hp, hv]
        · simp only [Crawl.runViews, Crawl.step, hp, Load, hv, if_true, decide_False,
            Bool.not_false]
          rw [ih vs (k + 1) _ hlen2]
          simp [expectedChildren, List.zip_cons_cons, List.filter_cons, hp, hv]
          omega
      · simp only [Crawl.runViews, Crawl.step, hp, Bool.false_eq_true, if_false]
        rw [ih vs k _ hlen2]
        simp [expectedChildren, List.zip_cons_cons, List.filter_cons, hp]

/-- C9. Expansion step and reported count.  Let the fetch of `Crawl(url, depth)`
succeed with body `body` and link list `L`, and let `depth > 1`.  The fetch step
enters the loop over `L` with `newUrls = 0` and spawns nothing.  Whatever the
registry holds at each `visited.Load` (the k-th occurrence sees the k-th view),
the loop spawns one child for an occurrence `u` exactly when
`followExternalLinks || isInternalLink(url, u)` holds and `u` is not in the
registry view; every child is `Crawl(u, depth - 1)`; and the task then sends the
single Result `Res{url, body, found}` with `found` the number of children it
spawned, and spawns nothing more. -/
theorem expansion_step (env : Env) (url body : String) (depth : Int) (hops : Nat)
    (L : List String) (views : List (List String))
    (hfetch : env.fetcher url = .ok (body, L)) (hdepth : 1 < depth)
    (hlen : views.length = L.length) :
    (∀ expired visited, Crawl.step env expired visited ⟨url, depth, hops, .fetch⟩ =
      some (⟨url, depth, hops, .expand body L 0⟩, [], visited)) ∧
    (∃ children : List Task,
      children = ((L.zip views).filter (fun p =>
          (env.followExternalLinks || isInternalLink env.net url p.1) &&
            !decide (p.1 ∈ p.2))).map (fun p => ⟨p.1, depth - 1, hops + 1, .entry⟩) ∧
      (∀ t ∈ children, t.depth = depth - 1) ∧
      Crawl.runViews env views ⟨url, depth, hops, .expand body L 0⟩ [] =
        (⟨url, depth, hops, .expand body [] children.length⟩, children) ∧
      ∀ expired visited,
        Crawl.step env expired visited ⟨url, depth, hops, .expand body [] children.length⟩ =
          some (⟨url, depth, hops, .sendRes ⟨url, body, children.length⟩⟩, [], visited)) ∧
    (∀ expired visited u rest newUrls,
      Crawl.step env expired visited ⟨url, depth, hops, .expand body (u :: rest) newUrls⟩ =
        if (env.followExternalLinks || isInternalLink env.net url u) && !decide (u ∈ visited) then
          some (⟨url, depth, hops, .expand body rest (newUrls + 1)⟩,
            [⟨u, depth - 1, hops + 1, .entry⟩], visited)
        else some (⟨url, depth, hops, .expand body rest newUrls⟩, [], visited)) := by
  refine ⟨?_, ⟨expectedChildren env url depth hops L views, rfl, ?_, ?_, ?_⟩, ?_⟩
  · intro expired visited
    have hgt : depth > 1 := hdepth
    simp only [Crawl.step, hfetch]
    rw [if_pos hgt]
  · intro t ht
    simp only [expectedChildren, List.mem_map] at ht
    obtain ⟨p, -, rfl⟩ := ht
    rfl
  · have := runViews_expand env url body depth hops L views 0 [] hlen
    simpa using this
  · intro expired visited
    rfl
  · intro expired visited u rest newUrls
    by_cases hp : (env.followExternalLinks || isInternalLink env.net url u) = true
    · by_cases hv : u ∈ visited
      · simp [Crawl.step, hp, Load, hv]
      · simp [Crawl.step, hp, Load, hv]
    · simp [Crawl.step, hp]

/-- The page `http://s.test/` lists the link `http://s.test/a` twice; with a
registry that holds nothing at either load, the task spawns two children, both
for that link with depth 1, and counts 2. -/
theorem expansion_step_witness :
    ∃ children : List Task,
      children = [⟨"http://s.test/a", 1, 1, .entry⟩, ⟨"http://s.test/a", 1, 1, .entry⟩] ∧
      Crawl.runViews sameLinkTwice [[], []]
          ⟨"http://s.test/", 2, 0, .expand "s" ["http://s.test/a", "http://s.test/a"] 0⟩ [] =
        (⟨"http://s.test/", 2, 0, .expand "s" [] children.length⟩, children) := by
  obtain ⟨children, hch, -, hrun, -⟩ :=
    (expansion_step sameLinkTwice "http://s.test/" "s" 2 0
      ["http://s.test/a", "http://s.test/a"] [[], []] rfl (by decide) rfl).2.1
  refine ⟨children, ?_, hrun⟩
  rw [hch]
  decide

/-! ## The fetch failure path -/

/-- C10. Fetch failure path.  When the fetch of `Crawl(url, depth)` returns an
error, for every depth and every value of `followExternalLinks`, the task goes to
the send of that error on the error channel without spawning and without touching
the registry; there it has no step of its own; when the collection loop receives
from it, `toCollect` is unchanged, `n` grows by one, no task is added and the task
has returned, after which it neither steps nor sends again.  So it emits exactly
one error and no Result. -/
theorem fetch_failure_path (env : Env) (url : String) (depth : Int) (hops : Nat) (e : String)
    (hfetch : env.fetcher url = .error e) :
    (∀ expired visited, Crawl.step env expired visited ⟨url, depth, hops, .fetch⟩ =
      some (⟨url, depth, hops, .sendErr e⟩, [], visited)) ∧
    (∀ expired visited, Crawl.step env expired visited ⟨url, depth, hops, .sendErr e⟩ = none) ∧
    (∀ (c : Config) (i : Nat), c.tasks[i]? = some ⟨url, depth, hops, .sendErr e⟩ →
      c.loop.n < c.loop.toCollect →
      ∃ c1, step env c (.recv i) = some c1 ∧
        c1.loop.toCollect = c.loop.toCollect ∧ c1.loop.n = c.loop.n + 1 ∧
        c1.loop.out = c.loop.out ++ [e] ∧ c1.loop.imageURLs = c.loop.imageURLs ∧
        c1.tasks = c.tasks.set i ⟨url, depth, hops, .done⟩ ∧
        c1.tasks.length = c.tasks.length ∧ c1.visited = c.visited ∧
        step env c1 (.task i) = none ∧ step env c1 (.recv i) = none) ∧
    (∀ l : Loop, (main.loopBody env l (.error e)).toCollect = l.toCollect ∧
      (main.loopBody env l (.error e)).n = l.n + 1) := by
  refine ⟨?_, ?_, ?_, ?_⟩
  · intro expired visited
    simp only [Crawl.step, hfetch]
  · intro expired visited
    rfl
  · intro c i hi hn
    have hlt : i < c.tasks.length := by
      rw [List.getElem?_eq_some] at hi
      exact hi.1
    have hset : (c.tasks.set i ⟨url, depth, hops, .done⟩)[i]? =
        some (⟨url, depth, hops, .done⟩ : Task) := by
      rw [List.getElem?_set_self hlt]
    refine ⟨{ c with tasks := c.tasks.set i ⟨url, depth, hops, .done⟩,
                     loop := main.loopBody env c.loop (.error e) },
      ?_, rfl, rfl, rfl, rfl, rfl, ?_, rfl, ?_, ?_⟩
    · simp only [step, hn, if_true, hi]
    · simp
    · simp only [step, hset, Crawl.step]
    · simp only [step, hset]
      split <;> rfl
  · intro l
    exact ⟨rfl, rfl⟩

/-- A fetcher that fails everywhere: the seed goes to the send of its error, the
loop receives it and ends with `n = toCollect = 1`. -/
theorem fetch_failure_path_witness :
    Crawl.step allFail false ["http://s.test/"] ⟨"http://s.test/", 3, 0, .fetch⟩ =
      some (⟨"http://s.test/", 3, 0, .sendErr "Get http://s.test/: no such host"⟩, [],
        ["http://s.test/"]) :=
  (fetch_failure_path allFail "http://s.test/" 3 0 "Get http://s.test/: no such host" rfl).1
    false ["http://s.test/"]

/-! ## The collection loop -/

theorem step_loop_final (env : Env) (c c1 : Config) (m : Move)
    (hfin : ¬ c.loop.n < c.loop.toCollect) (hstep : step env c m = some c1) :
    c1.loop = c.loop := by
  cases m with
  | task i =>
    simp only [step] at hstep
    split at hstep
    · simp at hstep
    · split at hstep
      · simp at hstep
      · simp only [Option.some.injEq] at hstep
        subst hstep
        rfl
  | recv i => simp [step, hfin] at hstep
  | timeout => simp [step, hfin] at hstep
  | deadline =>
    simp only [step, Option.some.injEq] at hstep
    subst hstep
    rfl

/-- Once `n < toCollect` fails the loop of `main` is over: whatever the
goroutines do afterwards, nothing more is received. -/
theorem run_loop_final (env : Env) (moves : List Move) (c c1 : Config)
    (hfin : ¬ c.loop.n < c.loop.toCollect) (hrun : run env c moves = some c1) :
    c1.loop = c.loop := by
  induction moves generalizing c with
  | nil =>
    simp only [run, Option.some.injEq] at hrun
    subst hrun
    rfl
  | cons m ms ih =>
    simp only [run] at hrun
    split at hrun
    · simp at hrun
    · rename_i c2 hc2
      have h2 := step_loop_final env c c2 m hfin hc2
      rw [ih c2 (by rw [h2]; exact hfin) hrun, h2]

/-- C1. The end-to-end scenario: the seed, with depth 2, links to `a` and `b`,
which link to nothing, and no timeout occurs.  When the Result of the seed is
received first the loop ends with `n = toCollect = 3` and every task has
returned.  When the Result of the child `a` is received before the Result of the
seed, the loop ends with `n = toCollect = 1`: the seed and `b` stay blocked in
their sends, and in every continuation the loop has received nothing more, so
three items are emitted by the tasks and one is collected. -/
theorem watermark_child_first :
    (∃ c, run twoLinks (main.init "http://s.test/" 2)
        [.task 0, .task 0, .task 0, .task 0, .task 0, .recv 0,
          .task 1, .task 1, .recv 1, .task 2, .task 2, .recv 2] = some c ∧
      c.loop.n = 3 ∧ c.loop.toCollect = 3 ∧
      c.tasks.map (fun t => t.pc) = [.done, .done, .done]) ∧
    (∃ c, run twoLinks (main.init "http://s.test/" 2)
        [.task 0, .task 0, .task 0, .task 0, .task 1, .task 1, .recv 1,
          .task 0, .task 2, .task 2] = some c ∧
      c.expired = false ∧ c.loop.n = 1 ∧ c.loop.toCollect = 1 ∧
      c.loop.out = ["found: http://s.test/a"] ∧
      c.tasks.map (fun t => t.pc) =
        [.sendRes ⟨"http://s.test/", "s", 2⟩, .done, .sendRes ⟨"http://s.test/b", "", 0⟩] ∧
      step twoLinks c (.recv 0) = none ∧ step twoLinks c (.recv 2) = none ∧
      step twoLinks c (.task 0) = none ∧ step twoLinks c (.task 2) = none ∧
      ∀ moves c1, run twoLinks c moves = some c1 → c1.loop = c.loop) := by
  refine ⟨⟨_, rfl, by decide, by decide, by decide⟩,
    ⟨_, rfl, by decide, by decide, by decide, by decide, by decide, by decide, by decide,
      by decide, by decide, ?_⟩⟩
  intro moves c1 hrun
  exact run_loop_final twoLinks moves _ c1 (by decide) hrun

/-- C2. The page of the seed lists the link `a` twice and the registry does not
hold `a`.  The parent loads the registry at both occurrences before either child
has stored `a`, so both claims succeed and two `Crawl` tasks are spawned for the
one URL; both fetch it and both Results are collected. -/
theorem duplicate_link_spawns_twice :
    (∃ c, run sameLinkTwice (main.init "http://s.test/" 2)
        [.task 0, .task 0, .task 0, .task 0] = some c ∧
      c.visited = ["http://s.test/"] ∧
      c.tasks = [⟨"http://s.test/", 2, 0, .expand "s" [] 2⟩,
        ⟨"http://s.test/a", 1, 1, .entry⟩, ⟨"http://s.test/a", 1, 1, .entry⟩] ∧
      (c.tasks.filter (fun t => t.url = "http://s.test/a")).length = 2) ∧
    (∃ c, run sameLinkTwice (main.init "http://s.test/" 2)
        [.task 0, .task 0, .task 0, .task 0, .task 0, .recv 0,
          .task 1, .task 1, .recv 1, .task 2, .task 2, .recv 2] = some c ∧
      c.loop.out = ["found: http://s.test/", "found: http://s.test/a", "found: http://s.test/a"] ∧
      c.loop.n = 3 ∧ c.loop.toCollect = 3) := by
  exact ⟨⟨_, rfl, by decide, by decide, by decide⟩, ⟨_, rfl, by decide, by decide, by decide⟩⟩

/-- C4. The deadline expires with `n = 0` and `toCollect = 3`, and the `select`
takes the timeout, then a Result, then the timeout again.  The loop does not stop
at the timeout: it consumes all three events and prints the timeout notice
twice. -/
theorem collect_continues_after_timeout :
    main.collect twoLinks ⟨0, 3, [], []⟩
        [.timeout, .result ⟨"http://s.test/a", "", 0⟩, .timeout,
          .result ⟨"http://s.test/b", "", 0⟩] =
      (⟨3, 3, [], ["Crawling timed out", "found: http://s.test/a", "Crawling timed out"]⟩,
        [.result ⟨"http://s.test/b", "", 0⟩]) ∧
    (∃ c, run twoLinks (main.init "http://s.test/" 2)
        [.task 0, .task 0, .task 0, .task 0, .task 0, .recv 0, .deadline, .timeout,
          .task 1, .task 2, .timeout] = some c ∧
      c.loop.n = 3 ∧ c.loop.toCollect = 3 ∧
      c.loop.out = ["found: http://s.test/", "Crawling timed out", "Crawling timed out"]) := by
  exact ⟨by decide, ⟨_, rfl, by decide, by decide, by decide⟩⟩

/-- After a timeout taken with `n + 1 < toCollect` the loop goes on with the next
event, whatever it is. -/
theorem collect_after_timeout (env : Env) (l : Loop) (e : Event) (es : List Event)
    (h : l.n + 1 < l.toCollect) :
    main.collect env l (.timeout :: e :: es) =
      main.collect env (main.loopBody env (main.loopBody env l .timeout) e) es := by
  have h1 : l.n < l.toCollect := by omega
  have h2 : (main.loopBody env l .timeout).n < (main.loopBody env l .timeout).toCollect := h
  simp only [main.collect, if_pos h1]
  rw [if_pos h2]

/-- A timeout taken with `n + 1 = toCollect` ends the loop. -/
theorem collect_timeout_last (env : Env) (l : Loop) (es : List Event)
    (h : l.n + 1 = l.toCollect) :
    main.collect env l (.timeout :: es) = (main.loopBody env l .timeout, es) := by
  have h1 : l.n < l.toCollect := by omega
  have h2 : ¬ (main.loopBody env l .timeout).n < (main.loopBody env l .timeout).toCollect := by
    show ¬ l.n + 1 < l.toCollect
    omega
  cases es with
  | nil => simp only [main.collect, if_pos h1]
  | cons e es =>
    simp only [main.collect, if_pos h1]
    rw [if_neg h2]

end Crawler
